import Mathlib

/-!
# CSVBookManager: the dataset view-engine

A shallow embedding of `src/src/components/CSVBookManager.jsx`.

Conventions of the embedding:

* a JavaScript string is a `String`; `includes` is the substring test and the relational
  comparison of two strings is the comparison of their UTF-16 code units;
* `toLowerCase` follows ECMAScript: every character is replaced by its lower-case mapping
  from the Unicode Character Database, except that a capital sigma in final position
  becomes a final small sigma; the Unicode tables themselves are a parameter (`CaseData`);
* a Number is a double: `parseInt` rounds the integer it reads to the nearest double, ties
  to even, and overflows to an infinity;
* a cell value is a string or a non-negative integer number (the only numbers the
  component ever stores are row ids and sample years);
* a row object is the list of its own properties, the `id` property included, in
  insertion order (no handler observes that order); the component reads rows only under
  the names `id`, `Title`, `Author`, `Genre`, `PublishedYear` and `ISBN`, none of which is
  a member of `Object.prototype`; an assignment to the name `__proto__` creates no own
  property;
* `Array.prototype.sort` is a stable sort, as ECMAScript requires; for a comparator that
  is a total preorder every stable sort returns the same array, here an insertion sort;
* a `Set` is the duplicate-free list of its members in insertion order;
* React state is an explicit record; every handler is a function from state to state.
-/

namespace CSVBookManager

/-! ## Strings -/

/-- The tables of the Unicode Character Database that lower-casing consults: the
lower-case mapping of a character (one or more characters) and the properties Cased and
Case_Ignorable. -/
structure CaseData where
  lower : Char → List Char
  cased : Char → Bool
  caseIgnorable : Char → Bool

/-- Walking away from a position, a cased letter is met after case-ignorable characters
only. -/
def precededByCased (u : CaseData) : List Char → Bool
  | [] => false
  | c :: rest => u.cased c || (u.caseIgnorable c && precededByCased u rest)

/-- Lower-casing of the characters that follow `before` (nearest character first): a
capital sigma U+03A3 that follows a cased letter and is not followed by one becomes the
final small sigma U+03C2, any other character its lower-case mapping. -/
def lowerFrom (u : CaseData) : List Char → List Char → List Char
  | _, [] => []
  | before, c :: rest =>
    (if c.toNat = 0x03A3 ∧ precededByCased u before = true ∧ precededByCased u rest = false
      then [Char.ofNat 0x03C2] else u.lower c) ++ lowerFrom u (c :: before) rest

/-- The method `String.prototype.toLowerCase`. -/
def toLowerCase (u : CaseData) (s : String) : String := ⟨lowerFrom u [] s.data⟩

/-- Substring test on character lists: `pat` occurs somewhere in `text`. -/
def includesL (pat : List Char) : List Char → Bool
  | [] => pat.isPrefixOf []
  | c :: cs => pat.isPrefixOf (c :: cs) || includesL pat cs

/-- The method `String.prototype.includes`: `includes s t` is `s.includes(t)`. -/
def includes (s t : String) : Bool := includesL t.data s.data

/-- White space and line terminators, the characters `String.prototype.trim` strips. -/
def isStrWhiteSpace (c : Char) : Bool :=
  let n := c.toNat
  n = 0x09 || n = 0x0A || n = 0x0B || n = 0x0C || n = 0x0D || n = 0x20 || n = 0xA0 ||
  n = 0x1680 || (0x2000 ≤ n && n ≤ 0x200A) || n = 0x2028 || n = 0x2029 || n = 0x202F ||
  n = 0x205F || n = 0x3000 || n = 0xFEFF

/-- The method `String.prototype.trim`. -/
def trim (s : String) : String :=
  ⟨((s.data.dropWhile isStrWhiteSpace).reverse.dropWhile isStrWhiteSpace).reverse⟩

/-- The UTF-16 code units of one character. -/
def charUnits (c : Char) : List Nat :=
  if c.toNat < 0x10000 then [c.toNat]
  else [0xD800 + (c.toNat - 0x10000) / 0x400, 0xDC00 + (c.toNat - 0x10000) % 0x400]

/-- The UTF-16 code units of a string. -/
def codeUnits (s : String) : List Nat := s.data.flatMap charUnits

/-- Lexicographic "less than" on code unit sequences. -/
def unitsLt : List Nat → List Nat → Bool
  | _, [] => false
  | [], _ :: _ => true
  | a :: as, b :: bs => decide (a < b) || (decide (a = b) && unitsLt as bs)

/-- The relational operator `<` on two strings. -/
def strLt (a b : String) : Bool := unitsLt (codeUnits a) (codeUnits b)

/-- Replace the first occurrence of `pat` by `rep` (character lists). -/
def replaceFirstL (pat rep : List Char) : List Char → List Char
  | [] => if pat.isPrefixOf [] then rep else []
  | c :: cs =>
    if pat.isPrefixOf (c :: cs) then rep ++ (c :: cs).drop pat.length
    else c :: replaceFirstL pat rep cs

/-- The method `String.prototype.replace` with a string pattern and a replacement without `$`:
`replace s pat rep` is `s.replace(pat, rep)`. -/
def replace (s pat rep : String) : String := ⟨replaceFirstL pat.data rep.data s.data⟩

/-! ## parseInt -/

/-- Value of a digit in base 16 (`none` when the character is no hexadecimal digit). -/
def hexDigit? (c : Char) : Option Nat :=
  if c.isDigit then some (c.toNat - '0'.toNat)
  else if 'a'.toNat ≤ c.toNat ∧ c.toNat ≤ 'f'.toNat then some (c.toNat - 'a'.toNat + 10)
  else if 'A'.toNat ≤ c.toNat ∧ c.toNat ≤ 'F'.toNat then some (c.toNat - 'A'.toNat + 10)
  else none

/-- Value of a digit in the given radix (10 or 16). -/
def digit? (radix : Nat) (c : Char) : Option Nat :=
  if radix = 16 then hexDigit? c
  else if c.isDigit then some (c.toNat - '0'.toNat) else none

/-- Read the longest prefix of digits: the accumulated value and whether a digit was seen. -/
def readDigits (radix : Nat) : List Char → Nat → Bool → Nat × Bool
  | [], acc, seen => (acc, seen)
  | c :: cs, acc, seen =>
    match digit? radix c with
    | some d => readDigits radix cs (acc * radix + d) true
    | none => (acc, seen)

/-- The integer that `parseInt` reads, before it becomes a Number: optional white space,
an optional sign, an optional `0x`, then the longest run of digits; `none` when there is
no digit. -/
def parseExact (input : List Char) : Option Int :=
  let s := input.dropWhile isStrWhiteSpace
  let (neg, s) :=
    match s with
    | '-' :: rest => (true, rest)
    | '+' :: rest => (false, rest)
    | _ => (false, s)
  let (radix, s) :=
    match s with
    | '0' :: 'x' :: rest => (16, rest)
    | '0' :: 'X' :: rest => (16, rest)
    | _ => (10, s)
  match readDigits radix s 0 false with
  | (n, true) => some (if neg then -(n : Int) else (n : Int))
  | (_, false) => none

/-- A Number that `parseInt` can return, `NaN` apart: an integer-valued double or an
infinity. -/
inductive Num where
  | negInf
  | fin (z : Int)
  | posInf
  deriving DecidableEq

/-- The relational operator `<` on two such Numbers. -/
def Num.lt : Num → Num → Bool
  | .negInf, .negInf => false
  | .negInf, .fin _ => true
  | .negInf, .posInf => true
  | .fin _, .negInf => false
  | .fin a, .fin b => decide (a < b)
  | .fin _, .posInf => true
  | .posInf, _ => false

/-- Number of binary digits of `n`, counted up to `fuel`. -/
def bitLengthAux : Nat → Nat → Nat
  | 0, _ => 0
  | fuel + 1, n => if n = 0 then 0 else bitLengthAux fuel (n / 2) + 1

/-- The double nearest to a natural number: 53 significant binary digits are kept, the
rest is rounded to nearest, ties to even; a result of more than 1024 binary digits is
overflow to `Infinity`, here `none`. -/
def toDouble (n : Nat) : Option Nat :=
  let e := bitLengthAux 1025 n - 53
  let q := n / 2 ^ e
  let r := n % 2 ^ e
  let q' := if 2 ^ e < 2 * r ∨ (2 * r = 2 ^ e ∧ q % 2 = 1) then q + 1 else q
  if bitLengthAux 1025 (q' * 2 ^ e) ≤ 1024 then some (q' * 2 ^ e) else none

/-- The Number value of an integer. -/
def numOfInt (z : Int) : Num :=
  match toDouble z.natAbs with
  | some m => .fin (if z < 0 then -(m : Int) else (m : Int))
  | none => if z < 0 then .negInf else .posInf

/-- The function `parseInt(string)` without a radix argument; `none` is `NaN`. -/
def parseIntL (input : List Char) : Option Num := (parseExact input).map numOfInt

/-! ## Values, rows, sets -/

/-- A cell value: a string or a number. -/
inductive Value where
  | str (s : String)
  | num (n : Nat)
  deriving DecidableEq

/-- The text of a value, `value.toString()`. -/
def Value.toString : Value → String
  | .str s => s
  | .num n => Nat.repr n

/-- A row object: its own properties, in insertion order. -/
structure Row where
  props : List (String × Value)
  deriving DecidableEq

/-- Property lookup on a list of properties. -/
def getL (k : String) : List (String × Value) → Option Value
  | [] => none
  | (k', v) :: rest => if k' = k then some v else getL k rest

/-- Property assignment on a list of properties: an existing property keeps its place. -/
def setL (k : String) (v : Value) : List (String × Value) → List (String × Value)
  | [] => [(k, v)]
  | (k', v') :: rest => if k' = k then (k, v) :: rest else (k', v') :: setL k v rest

/-- The property read `row[k]`; `none` is `undefined`. -/
def Row.getProp (r : Row) (k : String) : Option Value := getL k r.props

/-- The row spread with `[k]: v` appended, also the effect of `obj[k] = v`. -/
def Row.setProp (r : Row) (k : String) (v : Value) : Row := ⟨setL k v r.props⟩

/-- The property values `Object.values(row)`. -/
def Row.values (r : Row) : List Value := r.props.map Prod.snd

/-- The set `new Set([...prev, x])`. -/
def setAdd (prev : List Value) (x : Value) : List Value :=
  if x ∈ prev then prev else prev ++ [x]

/-! ## Component state -/

/-- The `sortConfig` object: `key` is `null` or a column name. -/
structure SortConfig where
  key : Option String
  direction : String
  deriving DecidableEq

/-- The state hooks of the component. -/
structure State where
  originalData : List Row
  currentData : List Row
  filteredData : List Row
  modifiedRows : List Value
  loading : Bool
  searchTerm : String
  sortConfig : SortConfig
  currentPage : Int
  filterColumn : String
  fileName : String
  deriving DecidableEq

/-- Page size. -/
def rowsPerPage : Nat := 50

/-! ## Query derivation -/

/-- The callback of `currentData.filter` in `sortedAndFilteredData`. -/
def rowMatches (u : CaseData) (searchTerm filterColumn : String) (row : Row) : Bool :=
  let searchValue := toLowerCase u searchTerm
  if filterColumn = "all" then
    row.values.any fun value => includes (toLowerCase u value.toString) searchValue
  else
    match row.getProp filterColumn with
    | some value => includes (toLowerCase u value.toString) searchValue
    | none => false

/-- The local `filtered` of `sortedAndFilteredData`, before sorting. -/
def filtered (u : CaseData) (s : State) : List Row :=
  s.currentData.filter (rowMatches u s.searchTerm s.filterColumn)

/-- The numeric sort value `parseInt(aValue) || 0`. -/
def yearValue (v : Option Value) : Num :=
  match v with
  | some x => (parseIntL x.toString.data).getD (.fin 0)
  | none => .fin 0

/-- The textual sort value `aValue?.toString().toLowerCase()`, or the empty string. -/
def textValue (u : CaseData) (v : Option Value) : String :=
  match v with
  | some x => toLowerCase u x.toString
  | none => ""

/-- The comparator handed to `filtered.sort`. -/
def compareRows (u : CaseData) (key direction : String) (a b : Row) : Int :=
  if key = "PublishedYear" then
    let aValue := yearValue (a.getProp key)
    let bValue := yearValue (b.getProp key)
    if Num.lt aValue bValue then (if direction = "asc" then -1 else 1)
    else if Num.lt bValue aValue then (if direction = "asc" then 1 else -1)
    else 0
  else
    let aValue := textValue u (a.getProp key)
    let bValue := textValue u (b.getProp key)
    if strLt aValue bValue then (if direction = "asc" then -1 else 1)
    else if strLt bValue aValue then (if direction = "asc" then 1 else -1)
    else 0

/-- The method `Array.prototype.sort(compareFn)`: a stable sort; `a` stays before `b` when
`compareFn(a, b) ≤ 0`. -/
def sortBy (compareFn : Row → Row → Int) (l : List Row) : List Row :=
  l.insertionSort fun a b => compareFn a b ≤ 0

/-- The memo `sortedAndFilteredData`. -/
def sortedAndFilteredData (u : CaseData) (s : State) : List Row :=
  match s.sortConfig.key with
  | some key =>
    if key ≠ "" then sortBy (compareRows u key s.sortConfig.direction) (filtered u s)
    else filtered u s
  | none => filtered u s

/-- The method `Array.prototype.slice(start, end)`. -/
def slice {α : Type} (l : List α) (start stop : Int) : List α :=
  let len : Int := l.length
  let k : Int := if start < 0 then max (len + start) 0 else min start len
  let fin : Int := if stop < 0 then max (len + stop) 0 else min stop len
  (l.drop k.toNat).take (fin - k).toNat

/-- The memo `paginatedData`. -/
def paginatedData (u : CaseData) (s : State) : List Row :=
  let startIndex : Int := (s.currentPage - 1) * rowsPerPage
  slice (sortedAndFilteredData u s) startIndex (startIndex + rowsPerPage)

/-- The value `Math.ceil(n / d)` for non-negative integers `n` and positive `d`. -/
def ceilDiv (n d : Nat) : Nat := (n + d - 1) / d

/-- The constant `totalPages`. -/
def totalPages (u : CaseData) (s : State) : Nat :=
  ceilDiv (sortedAndFilteredData u s).length rowsPerPage

/-! ## Handlers -/

/-- The callback of the two `map` calls in `handleCellEdit`:
`row.id === rowId ? { ...row, [field]: value } : row`. -/
def editRow (rowId : Value) (field : String) (value : Value) (row : Row) : Row :=
  if row.getProp "id" = some rowId then row.setProp field value else row

/-- The handler `handleCellEdit(rowId, field, value)`. -/
def handleCellEdit (s : State) (rowId : Value) (field : String) (value : Value) : State :=
  { s with
    currentData := s.currentData.map (editRow rowId field value)
    modifiedRows := setAdd s.modifiedRows rowId
    filteredData := s.filteredData.map (editRow rowId field value) }

/-- The handler `handleSort(key)`. -/
def handleSort (s : State) (key : String) : State :=
  let direction :=
    if s.sortConfig.key = some key ∧ s.sortConfig.direction = "asc" then "desc" else "asc"
  { s with sortConfig := { key := some key, direction := direction } }

/-- The `onChange` of the search box. -/
def onSearchChange (s : State) (value : String) : State :=
  { s with searchTerm := value, currentPage := 1 }

/-- The `onChange` of the filter-column select. -/
def onFilterColumnChange (s : State) (value : String) : State :=
  { s with filterColumn := value, currentPage := 1 }

/-- The state setter `setCurrentPage`, as the pagination buttons call it. -/
def setCurrentPage (s : State) (page : Int) : State :=
  { s with currentPage := page }

/-- The handler `handleReset`. -/
def handleReset (s : State) : State :=
  { s with
    currentData := s.originalData
    filteredData := s.originalData
    modifiedRows := []
    searchTerm := ""
    sortConfig := { key := none, direction := "asc" }
    currentPage := 1 }

/-- A user intent that is neither an import nor a reset. -/
inductive Action where
  | cellEdit (rowId : Value) (field : String) (value : Value)
  | sort (key : String)
  | search (value : String)
  | filterColumn (value : String)
  | page (page : Int)

/-- The effect of one user intent. -/
def step (s : State) : Action → State
  | .cellEdit rowId field value => handleCellEdit s rowId field value
  | .sort key => handleSort s key
  | .search value => onSearchChange s value
  | .filterColumn value => onFilterColumnChange s value
  | .page page => setCurrentPage s page

/-- The effect of a sequence of user intents, in order. -/
def run (s : State) (actions : List Action) : State := actions.foldl step s

/-! ## Import -/

/-- The filter callback `row => row.some(cell => cell?.trim())`. -/
def rowHasContent (row : List String) : Bool := row.any fun cell => decide (trim cell ≠ "")

/-- The body of `headers.forEach`, folded over the headers:
`obj[header.trim()] = row[i] || ''`. An assignment to `__proto__` reaches the setter of
`Object.prototype`, which ignores a string and leaves the object as it is. -/
def fillRecord (row : List String) (obj : Row) : List (Nat × String) → Row
  | [] => obj
  | (i, header) :: rest =>
    if trim header = "__proto__" then fillRecord row obj rest
    else fillRecord row (obj.setProp (trim header) (.str (row.getD i ""))) rest

/-- The callback of `rows.map` in the `complete` callback of `handleFileUpload`. -/
def buildRecord (headers row : List String) (index : Nat) : Row :=
  fillRecord row ⟨[("id", .num (index + 1))]⟩ headers.enum

/-- The value `parsedData` computed from `results.data`. -/
def parsedData (data : List (List String)) : List Row :=
  match data with
  | [] => []
  | headers :: rest =>
    (rest.filter rowHasContent).enum.map fun p => buildRecord headers p.2 p.1

/-- The `complete` callback of `handleFileUpload`, on `results.data`. -/
def onParseComplete (s : State) (data : List (List String)) : State :=
  { s with
    originalData := parsedData data
    currentData := parsedData data
    filteredData := parsedData data
    modifiedRows := []
    currentPage := 1
    loading := false }

/-! ## Export -/

/-- The value given to `link.download` in `handleDownload`. -/
def downloadName (fileName : String) : String :=
  replace fileName ".csv" "" ++ "_edited.csv"

/-! ## Sample data -/

/-- The entries of the Unicode tables for Basic Latin and for the Greek letters U+0391 to
U+03A9 and U+03B1 to U+03C9; outside these the excerpt maps a character to itself and
holds it neither cased nor case-ignorable. It serves to evaluate examples written in
these characters. -/
def unicodeExcerpt : CaseData where
  lower c :=
    let n := c.toNat
    if (0x41 ≤ n ∧ n ≤ 0x5A) ∨ (0x0391 ≤ n ∧ n ≤ 0x03A9 ∧ n ≠ 0x03A2) then [Char.ofNat (n + 32)]
    else [c]
  cased c :=
    let n := c.toNat
    decide ((0x41 ≤ n ∧ n ≤ 0x5A) ∨ (0x61 ≤ n ∧ n ≤ 0x7A) ∨
      (0x0391 ≤ n ∧ n ≤ 0x03A9 ∧ n ≠ 0x03A2) ∨ (0x03B1 ≤ n ∧ n ≤ 0x03C9))
  caseIgnorable c :=
    let n := c.toNat
    decide (n = 0x27 ∨ n = 0x2E ∨ n = 0x3A ∨ n = 0x5E ∨ n = 0x60)

/-- A row with a numeric year, as the sample generator makes them. -/
def rowFoo : Row :=
  ⟨[("id", .num 1), ("Title", .str "Foo"), ("Author", .str "Bar"),
    ("PublishedYear", .num 2000)]⟩

/-- A row with a textual year, as an import or an edit makes them. -/
def rowBaz : Row :=
  ⟨[("id", .num 2), ("Title", .str "Baz"), ("Author", .str "Qux"),
    ("PublishedYear", .str "1999")]⟩

/-- A state holding the two sample rows, with the initial query state. -/
def twoRows : State :=
  { originalData := [rowFoo, rowBaz]
    currentData := [rowFoo, rowBaz]
    filteredData := [rowFoo, rowBaz]
    modifiedRows := []
    loading := false
    searchTerm := ""
    sortConfig := { key := none, direction := "asc" }
    currentPage := 1
    filterColumn := "all"
    fileName := "books.csv" }

/-- A state without any row. -/
def noRows : State :=
  { twoRows with originalData := [], currentData := [], filteredData := [] }

/-- A state holding 120 copies of one row. -/
def manyRows : State :=
  { twoRows with currentData := List.replicate 120 rowFoo }

/-- The two-row state, sorted by year in ascending direction. -/
def twoRowsByYear : State :=
  { twoRows with sortConfig := { key := some "PublishedYear", direction := "asc" } }

/-- The two-row state with the search term "1" over all columns. -/
def twoRowsSearchOne : State :=
  { twoRows with currentData := [rowFoo], searchTerm := "1" }

/-- The two-row state filtered on a column that no row has, with an empty search term. -/
def twoRowsByGenre : State :=
  { twoRows with filterColumn := "Genre" }

/-- The two-row state with the search term "foo" on the title column. -/
def twoRowsTitleFoo : State :=
  { twoRows with filterColumn := "Title", searchTerm := "foo" }

/-- A row whose year was typed as 2^53 + 1. -/
def rowYearOdd : Row :=
  ⟨[("id", .num 1), ("Title", .str "Foo"), ("PublishedYear", .str "9007199254740993")]⟩

/-- A row whose year was typed as 2^53. -/
def rowYearEven : Row :=
  ⟨[("id", .num 2), ("Title", .str "Baz"), ("PublishedYear", .str "9007199254740992")]⟩

/-- A state with the two long years, the larger first, sorted by year ascending. -/
def longYears : State :=
  { twoRows with
    currentData := [rowYearOdd, rowYearEven]
    sortConfig := { key := some "PublishedYear", direction := "asc" } }

/-- A state with one row, whose title is the Greek text "ασα". -/
def greekTitle : State :=
  { twoRows with currentData := [⟨[("id", .num 1), ("Title", .str "ασα")]⟩] }

/-! ## The specification's vocabulary -/

/-- The sort key of `a` does not exceed the sort key of `b`: for `PublishedYear` the
Number that `parseInt` returns (0 when unparsable), for any other column the lower-cased
string. -/
def keyLe (u : CaseData) (key : String) (a b : Row) : Bool :=
  if key = "PublishedYear" then
    !Num.lt (yearValue (b.getProp key)) (yearValue (a.getProp key))
  else
    !strLt (textValue u (b.getProp key)) (textValue u (a.getProp key))

/-- The sort keys of `a` and `b` compare equal: neither exceeds the other. -/
def keyEq (u : CaseData) (key : String) (a b : Row) : Bool :=
  keyLe u key a b && keyLe u key b a

/-- The year key in the words of the specification: the integer that the cell denotes,
0 when it is unparsable. -/
def integerYear (v : Option Value) : Int :=
  match v with
  | some x => (parseExact x.toString.data).getD 0
  | none => 0

/-- The retention rule in the words of the specification: the search term is empty, or
the filter column is "all" and some column value (not the id) contains the term, or the
filter column names a column whose value, the empty string when absent, contains it. -/
def specRetains (u : CaseData) (searchTerm filterColumn : String) (row : Row) : Bool :=
  decide (searchTerm = "") ||
  (decide (filterColumn = "all") &&
    (row.props.filter fun p => decide (p.1 ≠ "id")).any fun p =>
      includes (toLowerCase u p.2.toString) (toLowerCase u searchTerm)) ||
  (decide (filterColumn ≠ "all") &&
    includes
      (toLowerCase u ((row.getProp filterColumn).map Value.toString |>.getD ""))
      (toLowerCase u searchTerm))

/-! ## Strings: lemmas -/

theorem includesL_iff (pat text : List Char) : includesL pat text = true ↔ pat <:+: text := by
  induction text with
  | nil => simp [includesL, List.isPrefixOf_iff_prefix]
  | cons c cs ih =>
    simp only [includesL, Bool.or_eq_true, ih, List.isPrefixOf_iff_prefix]
    exact (List.infix_cons_iff).symm

theorem lowerFrom_append (u : CaseData) (t : List Char) :
    ∀ (s before : List Char), (∀ c ∈ s, c.toNat ≠ 0x03A3) →
      lowerFrom u before (s ++ t)
        = lowerFrom u before s ++ lowerFrom u (s.reverse ++ before) t := by
  intro s
  induction s with
  | nil => intro before _; simp [lowerFrom]
  | cons c cs ih =>
    intro before h
    have hc : c.toNat ≠ 0x03A3 := h c (List.mem_cons_self _ _)
    have hcs : ∀ d ∈ cs, d.toNat ≠ 0x03A3 := fun d hd => h d (List.mem_cons_of_mem _ hd)
    have e := ih (c :: before) hcs
    rw [List.cons_append, lowerFrom, lowerFrom, e]
    simp [hc]

theorem toLowerCase_prefix_of_no_sigma (u : CaseData) (s t : String)
    (h : ∀ c ∈ s.data, c.toNat ≠ 0x03A3) :
    (toLowerCase u s).data <+: (toLowerCase u (s ++ t)).data := by
  simp only [toLowerCase, String.data_append]
  rw [lowerFrom_append u t.data s.data [] h]
  exact List.prefix_append _ _

theorem includes_of_prefix (v a b : String) (hp : a.data <+: b.data)
    (h : includes v b = true) : includes v a = true := by
  unfold includes at *
  rw [includesL_iff] at *
  exact hp.isInfix.trans h

theorem rowMatches_of_prefix (u : CaseData) (s t fc : String) (r : Row)
    (hp : (toLowerCase u s).data <+: (toLowerCase u t).data)
    (h : rowMatches u t fc r = true) : rowMatches u s fc r = true := by
  unfold rowMatches at *
  by_cases hfc : fc = "all"
  · simp only [hfc, if_true, List.any_eq_true] at *
    obtain ⟨v, hv, hm⟩ := h
    exact ⟨v, hv, includes_of_prefix _ _ _ hp hm⟩
  · simp only [hfc, if_false] at *
    cases hg : r.getProp fc with
    | none => simp [hg] at h
    | some v =>
      simp only [hg] at h ⊢
      exact includes_of_prefix _ _ _ hp h

/-! ## Pagination: lemmas -/

theorem pages_flatten {α : Type} (m : Nat) : ∀ l : List α, l.length ≤ m * 50 →
    ((List.range m).map fun i => (l.drop (i * 50)).take 50).flatten = l := by
  induction m with
  | zero => intro l h; simp at h; simp [h]
  | succ m ih =>
    intro l h
    rw [List.range_succ_eq_map, List.map_cons, List.flatten_cons, List.map_map]
    have h2 : (l.drop 50).length ≤ m * 50 := by simp; omega
    have := ih (l.drop 50) h2
    have e : ((fun i => (l.drop (i * 50)).take 50) ∘ Nat.succ)
        = fun i => ((l.drop 50).drop (i * 50)).take 50 := by
      funext i
      simp [Nat.succ_mul, Nat.add_comm]
    rw [e, this]
    simp

theorem slice_page {α : Type} (l : List α) (i : Nat) :
    slice l ((((i : Int) + 1) - 1) * (rowsPerPage : Nat))
        ((((i : Int) + 1) - 1) * (rowsPerPage : Nat) + (rowsPerPage : Nat))
      = (l.drop (i * 50)).take 50 := by
  unfold slice rowsPerPage
  simp only [add_sub_cancel_right]
  have h1 : ¬ ((i : Int) * ((50 : Nat) : Int) < 0) := by omega
  have h2 : ¬ ((i : Int) * ((50 : Nat) : Int) + ((50 : Nat) : Int) < 0) := by omega
  simp only [h1, h2, if_false]
  by_cases hl : i * 50 ≤ l.length
  · have e1 : (min ((i : Int) * ((50 : Nat) : Int)) (l.length : Int)).toNat = i * 50 := by
      omega
    rw [e1]
    by_cases hl2 : i * 50 + 50 ≤ l.length
    · have e2 : (min ((i : Int) * ((50 : Nat) : Int) + ((50 : Nat) : Int)) (l.length : Int)
          - min ((i : Int) * ((50 : Nat) : Int)) (l.length : Int)).toNat = 50 := by omega
      rw [e2]
    · have e2 : (min ((i : Int) * ((50 : Nat) : Int) + ((50 : Nat) : Int)) (l.length : Int)
          - min ((i : Int) * ((50 : Nat) : Int)) (l.length : Int)).toNat
            = l.length - i * 50 := by omega
      rw [e2]
      rw [List.take_of_length_le (by simp), List.take_of_length_le (by simp; omega)]
  · have e1 : (min ((i : Int) * ((50 : Nat) : Int)) (l.length : Int)).toNat = l.length := by
      omega
    rw [e1]
    rw [List.drop_of_length_le (by omega), List.drop_of_length_le (by omega)]
    simp

theorem paginatedData_page (u : CaseData) (s : State) (i : Nat) :
    paginatedData u { s with currentPage := (i : Int) + 1 }
      = ((sortedAndFilteredData u s).drop (i * 50)).take 50 := by
  have h : sortedAndFilteredData u { s with currentPage := (i : Int) + 1 }
      = sortedAndFilteredData u s := rfl
  unfold paginatedData
  simp only [h]
  exact slice_page _ i

theorem ceilDiv_fifty_spec (n : Nat) : n ≤ ceilDiv n 50 * 50 ∧ ceilDiv n 50 * 50 < n + 50 := by
  unfold ceilDiv
  omega

theorem sortedAndFilteredData_length (u : CaseData) (s : State) :
    (sortedAndFilteredData u s).length = (filtered u s).length := by
  unfold sortedAndFilteredData
  cases s.sortConfig.key with
  | none => rfl
  | some key =>
    by_cases hk : key = ""
    · simp [hk]
    · simp [hk, sortBy, List.length_insertionSort]

/-! ## Claims on pagination and filtering -/

/-- C1: for every state, the pages that `paginatedData` yields for `currentPage` = 1, 2, ...,
`totalPages`, concatenated in that order, are exactly `sortedAndFilteredData`. -/
theorem pages_cover_exactly_once (u : CaseData) (s : State) :
    ((List.range (totalPages u s)).map fun (i : Nat) =>
        paginatedData u { s with currentPage := (i : Int) + 1 }).flatten
      = sortedAndFilteredData u s := by
  have e : (fun i : Nat => paginatedData u { s with currentPage := (i : Int) + 1 })
      = fun i : Nat => ((sortedAndFilteredData u s).drop (i * 50)).take 50 :=
    funext (paginatedData_page u s)
  rw [e]
  exact pages_flatten _ _ (ceilDiv_fifty_spec _).1

/-- C9 (amended): a search term without a capital sigma is lower-cased to a prefix of the
lower-casing of the term followed by any string; and whenever the lower-cased `term` is
a prefix of the lower-cased `term ++ more`, the filter retains for `term ++ more` a
subsequence of what it retains for `term`, so no more rows, and the count of
`sortedAndFilteredData` does not grow either. -/
theorem filter_narrowing_monotone (u : CaseData) (s : State) (term more : String) :
    ((∀ c ∈ term.data, c.toNat ≠ 0x03A3) →
      (toLowerCase u term).data <+: (toLowerCase u (term ++ more)).data) ∧
    ((toLowerCase u term).data <+: (toLowerCase u (term ++ more)).data →
      (filtered u { s with searchTerm := term ++ more }).Sublist
          (filtered u { s with searchTerm := term }) ∧
      (filtered u { s with searchTerm := term ++ more }).length
        ≤ (filtered u { s with searchTerm := term }).length ∧
      (sortedAndFilteredData u { s with searchTerm := term ++ more }).length
        ≤ (sortedAndFilteredData u { s with searchTerm := term }).length) := by
  refine ⟨toLowerCase_prefix_of_no_sigma u term more, ?_⟩
  intro hp
  have h : (filtered u { s with searchTerm := term ++ more }).Sublist
      (filtered u { s with searchTerm := term }) := by
    unfold filtered
    exact List.monotone_filter_right _ (fun r hr => rowMatches_of_prefix u _ _ _ r hp hr)
  refine ⟨h, h.length_le, ?_⟩
  rw [sortedAndFilteredData_length, sortedAndFilteredData_length]
  exact h.length_le

/-- C9, witness: narrowing "fo" to "foo" in the two-row state. -/
theorem filter_narrowing_monotone_witness :
    (∀ c ∈ "fo".data, c.toNat ≠ 0x03A3) ∧
    (filtered unicodeExcerpt { twoRows with searchTerm := "fo" ++ "o" }).length
      ≤ (filtered unicodeExcerpt { twoRows with searchTerm := "fo" }).length :=
  ⟨by decide,
    ((filter_narrowing_monotone unicodeExcerpt twoRows "fo" "o").2
      ((filter_narrowing_monotone unicodeExcerpt twoRows "fo" "o").1 (by decide))).2.1⟩

/-- C9, counterexample: the title is "ασα"; the term "ΑΣ" is lower-cased to "ας", with a
final sigma, and retains no row; the term "ΑΣ" followed by "Α" is lower-cased to "ασα"
and retains the row. -/
theorem final_sigma_widens_filter :
    toLowerCase unicodeExcerpt "ΑΣ" = "ας" ∧
    toLowerCase unicodeExcerpt ("ΑΣ" ++ "Α") = "ασα" ∧
    (filtered unicodeExcerpt { greekTitle with searchTerm := "ΑΣ" }).length = 0 ∧
    (filtered unicodeExcerpt { greekTitle with searchTerm := "ΑΣ" ++ "Α" }).length = 1 ∧
    ¬ (filtered unicodeExcerpt { greekTitle with searchTerm := "ΑΣ" ++ "Α" }).length
      ≤ (filtered unicodeExcerpt { greekTitle with searchTerm := "ΑΣ" }).length := by
  decide

/-! ## Page count -/

theorem ceilDiv_fifty_eq_ceil (n : Nat) : ceilDiv n 50 = ⌈(n : ℚ) / 50⌉₊ := by
  obtain ⟨h1, h2⟩ := ceilDiv_fifty_spec n
  apply le_antisymm
  · rcases Nat.eq_zero_or_pos (ceilDiv n 50) with h0 | hpos
    · omega
    · have h3 : ceilDiv n 50 - 1 < ⌈(n : ℚ) / 50⌉₊ := by
        rw [Nat.lt_ceil, lt_div_iff₀ (by norm_num)]
        have h4 : (ceilDiv n 50 - 1) * 50 < n := by omega
        exact_mod_cast h4
      omega
  · rw [Nat.ceil_le, div_le_iff₀ (by norm_num)]
    exact_mod_cast h1

/-- C7 (amended): `totalPages` is the ceiling of n / 50 for a result of length n; it is 0
when n is 0 and at least 1 when n is positive; when n is 120 it is 3 and page 3 holds
exactly the 20 rows that follow the first 100. -/
theorem totalPages_is_ceiling (u : CaseData) (s : State) :
    totalPages u s = ⌈((sortedAndFilteredData u s).length : ℚ) / 50⌉₊ ∧
    ((sortedAndFilteredData u s).length = 0 → totalPages u s = 0) ∧
    (0 < (sortedAndFilteredData u s).length → 1 ≤ totalPages u s) ∧
    ((sortedAndFilteredData u s).length = 120 →
      totalPages u s = 3 ∧
      paginatedData u { s with currentPage := 3 } = (sortedAndFilteredData u s).drop 100 ∧
      (paginatedData u { s with currentPage := 3 }).length = 20) := by
  refine ⟨ceilDiv_fifty_eq_ceil _, ?_, ?_, ?_⟩
  · intro h
    simp [totalPages, h, ceilDiv, rowsPerPage]
  · intro h
    have := (ceilDiv_fifty_spec (sortedAndFilteredData u s).length).1
    unfold totalPages rowsPerPage
    omega
  · intro h
    have hp : paginatedData u { s with currentPage := 3 }
        = ((sortedAndFilteredData u s).drop 100).take 50 := paginatedData_page u s 2
    have hl : ((sortedAndFilteredData u s).drop 100).length = 20 := by simp [h]
    rw [hp, List.take_of_length_le (by omega)]
    refine ⟨?_, rfl, hl⟩
    simp [totalPages, h, ceilDiv, rowsPerPage]

/-- C7, witness: a result of 120 rows has 3 pages, the third with 20 rows. -/
theorem totalPages_is_ceiling_witness :
    (sortedAndFilteredData unicodeExcerpt manyRows).length = 120 ∧
    (totalPages unicodeExcerpt manyRows = 3 ∧
      paginatedData unicodeExcerpt { manyRows with currentPage := 3 }
        = (sortedAndFilteredData unicodeExcerpt manyRows).drop 100 ∧
      (paginatedData unicodeExcerpt { manyRows with currentPage := 3 }).length = 20) :=
  ⟨by decide, (totalPages_is_ceiling unicodeExcerpt manyRows).2.2.2 (by decide)⟩

/-- C7, counterexample: with no row in the result, `totalPages` is 0, not 1. -/
theorem totalPages_of_empty_result :
    (sortedAndFilteredData unicodeExcerpt noRows).length = 0 ∧
    totalPages unicodeExcerpt noRows = 0 ∧
    ¬ (1 ≤ totalPages unicodeExcerpt noRows) := by
  decide

/-! ## Export file name -/

theorem replaceFirstL_csv_suffix : ∀ b : List Char,
    includesL ['.', 'c', 's', 'v'] b = false →
    replaceFirstL ['.', 'c', 's', 'v'] [] (b ++ ['.', 'c', 's', 'v']) = b := by
  intro b
  induction b with
  | nil => intro _; decide
  | cons c cs ih =>
    intro h
    simp only [includesL, Bool.or_eq_false_iff] at h
    obtain ⟨hp, hr⟩ := h
    have hq : List.isPrefixOf ['.', 'c', 's', 'v'] (c :: (cs ++ ['.', 'c', 's', 'v'])) = false := by
      rcases cs with _ | ⟨c2, _ | ⟨c3, _ | ⟨c4, rest⟩⟩⟩
      · simp [List.isPrefixOf]
      · simp [List.isPrefixOf]
      · simp [List.isPrefixOf]
      · simpa [List.isPrefixOf] using hp
    rw [List.cons_append, replaceFirstL, hq, ih hr]
    simp

/-- C10 (amended): when the import file name is `base` followed by a lower-case `.csv`
and the text `.csv` does not occur in `base`, the download name is `base`, then `_edited`,
then `.csv`. -/
theorem downloadName_of_csv_name (base : String) (h : includes base ".csv" = false) :
    downloadName (base ++ ".csv") = base ++ "_edited" ++ ".csv" := by
  have e : replace (base ++ ".csv") ".csv" "" = base := by
    unfold replace
    have := replaceFirstL_csv_suffix base.data h
    simp only [String.data_append]
    exact congrArg String.mk this
  unfold downloadName
  rw [e, String.append_assoc]
  rfl

/-- C10, witness: `books.csv` gives `books_edited.csv`. -/
theorem downloadName_of_csv_name_witness :
    includes "books" ".csv" = false ∧ downloadName ("books" ++ ".csv") = "books_edited.csv" :=
  ⟨by decide, downloadName_of_csv_name "books" (by decide)⟩

/-- C10, counterexample: an upper-case extension, another extension and an earlier `.csv`
are not moved behind `_edited`. -/
theorem downloadName_other_names :
    downloadName "books.CSV" = "books.CSV_edited.csv" ∧
    downloadName "books.CSV" ≠ "books_edited.CSV" ∧
    downloadName "data.txt" = "data.txt_edited.csv" ∧
    downloadName "data.txt" ≠ "data_edited.txt" ∧
    downloadName "my.csv.old.csv" = "my.old.csv_edited.csv" ∧
    downloadName "my.csv.old.csv" ≠ "my.csv.old_edited.csv" := by
  decide

/-! ## Rows and sets: lemmas -/

theorem getL_setL_same (k : String) (v : Value) :
    ∀ l : List (String × Value), getL k (setL k v l) = some v := by
  intro l
  induction l with
  | nil => simp [setL, getL]
  | cons p rest ih =>
    obtain ⟨k', v'⟩ := p
    by_cases h : k' = k
    · simp [setL, getL, h]
    · simp [setL, getL, h, ih]

theorem getL_setL_other (k k' : String) (v : Value) (hk : k' ≠ k) :
    ∀ l : List (String × Value), getL k' (setL k v l) = getL k' l := by
  intro l
  induction l with
  | nil => simp [setL, getL, Ne.symm hk]
  | cons p rest ih =>
    obtain ⟨k₀, v₀⟩ := p
    by_cases h : k₀ = k
    · have h' : ¬ k₀ = k' := fun e => hk (e.symm.trans h)
      have h'' : ¬ k = k' := fun e => hk e.symm
      simp [setL, getL, h, h', h'']
    · by_cases h2 : k₀ = k'
      · subst h2
        simp [setL, getL, h]
      · simp [setL, getL, h, h2, ih]

theorem mem_setAdd (prev : List Value) (x y : Value) :
    y ∈ setAdd prev x ↔ y ∈ prev ∨ y = x := by
  unfold setAdd
  by_cases h : x ∈ prev
  · simp only [h, if_true]
    constructor
    · exact Or.inl
    · rintro (h' | rfl)
      · exact h'
      · exact h
  · simp [h]

theorem run_originalData (actions : List Action) : ∀ s : State,
    (run s actions).originalData = s.originalData := by
  induction actions with
  | nil => intro s; rfl
  | cons a rest ih =>
    intro s
    show (run (step s a) rest).originalData = s.originalData
    rw [ih]
    cases a <;> rfl

/-! ## Claims on edits and reset -/

/-- C4: for every state and every `handleCellEdit(rowId, field, value)` for which a row
with id `rowId` exists in the working data: the working data keeps its length and order;
at each position, a row with id `rowId` is replaced by a row that has `field` set to
`value` and every other cell as before, and any other row stays as it is; at least one
row is so edited; the modified set is the previous one with `rowId` added, and is
unchanged when `rowId` was already in it; the original data is as before. -/
theorem handleCellEdit_effect (s : State) (rowId : Value) (field : String) (value : Value)
    (h : ∃ r ∈ s.currentData, r.getProp "id" = some rowId) :
    (handleCellEdit s rowId field value).currentData.length = s.currentData.length ∧
    (∀ (i : Nat) (r : Row), s.currentData[i]? = some r →
      ∃ r', (handleCellEdit s rowId field value).currentData[i]? = some r' ∧
        (r.getProp "id" = some rowId →
          r'.getProp field = some value ∧ ∀ k, k ≠ field → r'.getProp k = r.getProp k) ∧
        (r.getProp "id" ≠ some rowId → r' = r)) ∧
    (∃ (i : Nat) (r r' : Row), s.currentData[i]? = some r ∧ r.getProp "id" = some rowId ∧
      (handleCellEdit s rowId field value).currentData[i]? = some r' ∧
      r'.getProp field = some value) ∧
    (∀ x, x ∈ (handleCellEdit s rowId field value).modifiedRows ↔
      x ∈ s.modifiedRows ∨ x = rowId) ∧
    (rowId ∈ s.modifiedRows →
      (handleCellEdit s rowId field value).modifiedRows = s.modifiedRows) ∧
    (handleCellEdit s rowId field value).originalData = s.originalData := by
  have key : ∀ (i : Nat) (r : Row), s.currentData[i]? = some r →
      ∃ r', (handleCellEdit s rowId field value).currentData[i]? = some r' ∧
        (r.getProp "id" = some rowId →
          r'.getProp field = some value ∧ ∀ k, k ≠ field → r'.getProp k = r.getProp k) ∧
        (r.getProp "id" ≠ some rowId → r' = r) := by
    intro i r hr
    refine ⟨editRow rowId field value r, ?_, ?_, ?_⟩
    · simp [handleCellEdit, List.getElem?_map, hr]
    · intro hid
      simp only [editRow, hid, if_true]
      exact ⟨getL_setL_same _ _ _, fun k hk => getL_setL_other _ _ _ hk _⟩
    · intro hid
      simp [editRow, hid]
  refine ⟨by simp [handleCellEdit], key, ?_, ?_, ?_, rfl⟩
  · obtain ⟨r, hr, hid⟩ := h
    obtain ⟨i, hi⟩ := List.mem_iff_getElem?.mp hr
    obtain ⟨r', h1, h2, _⟩ := key i r hi
    exact ⟨i, r, r', hi, hid, h1, (h2 hid).1⟩
  · intro x
    exact mem_setAdd _ _ _
  · intro hm
    simp [handleCellEdit, setAdd, hm]

/-- C4, witness: editing the title of the row with id 1 in the two-row state. -/
theorem handleCellEdit_effect_witness :
    (∃ r ∈ twoRows.currentData, r.getProp "id" = some (.num 1)) ∧
    (handleCellEdit twoRows (.num 1) "Title" (.str "New Title")).currentData
      = [rowFoo.setProp "Title" (.str "New Title"), rowBaz] ∧
    (handleCellEdit twoRows (.num 1) "Title" (.str "New Title")).modifiedRows = [.num 1] ∧
    (handleCellEdit twoRows (.num 1) "Title" (.str "New Title")).originalData
      = twoRows.originalData :=
  ⟨⟨rowFoo, by decide, by decide⟩, by decide, by decide,
    (handleCellEdit_effect twoRows (.num 1) "Title" (.str "New Title")
      ⟨rowFoo, by decide, by decide⟩).2.2.2.2.2⟩

/-- C5 (amended): for every state and every `handleCellEdit(rowId, field, value)` where no
row of the working data has id `rowId`, the working data, the original data and the query
state are as before, and the modified set is the previous one with `rowId` added. -/
theorem handleCellEdit_without_row (s : State) (rowId : Value) (field : String)
    (value : Value) (h : ∀ r ∈ s.currentData, r.getProp "id" ≠ some rowId) :
    (handleCellEdit s rowId field value).currentData = s.currentData ∧
    (handleCellEdit s rowId field value).originalData = s.originalData ∧
    (handleCellEdit s rowId field value).searchTerm = s.searchTerm ∧
    (handleCellEdit s rowId field value).filterColumn = s.filterColumn ∧
    (handleCellEdit s rowId field value).sortConfig = s.sortConfig ∧
    (handleCellEdit s rowId field value).currentPage = s.currentPage ∧
    (∀ x, x ∈ (handleCellEdit s rowId field value).modifiedRows ↔
      x ∈ s.modifiedRows ∨ x = rowId) ∧
    (rowId ∉ s.modifiedRows →
      (handleCellEdit s rowId field value).modifiedRows = s.modifiedRows ++ [rowId]) := by
  refine ⟨?_, rfl, rfl, rfl, rfl, rfl, fun x => mem_setAdd _ _ _, ?_⟩
  · show s.currentData.map (editRow rowId field value) = s.currentData
    conv_rhs => rw [← List.map_id s.currentData]
    apply List.map_congr_left
    intro r hr
    simp [editRow, h r hr]
  · intro hm
    simp [handleCellEdit, setAdd, hm]

/-- C5, witness: an edit for the id 99, which no row of the two-row state has. -/
theorem handleCellEdit_without_row_witness :
    (∀ r ∈ twoRows.currentData, r.getProp "id" ≠ some (.num 99)) ∧
    (handleCellEdit twoRows (.num 99) "Title" (.str "x")).currentData = twoRows.currentData ∧
    (handleCellEdit twoRows (.num 99) "Title" (.str "x")).modifiedRows
      = twoRows.modifiedRows ++ [.num 99] :=
  ⟨by decide,
    (handleCellEdit_without_row twoRows (.num 99) "Title" (.str "x") (by decide)).1,
    (handleCellEdit_without_row twoRows (.num 99) "Title" (.str "x") (by decide)).2.2.2.2.2.2.2
      (by decide)⟩

/-- C5, counterexample: no row has id 99, yet the edit changes the modified set. -/
theorem handleCellEdit_marks_missing_row :
    (∀ r ∈ twoRows.currentData, r.getProp "id" ≠ some (.num 99)) ∧
    twoRows.modifiedRows = [] ∧
    (handleCellEdit twoRows (.num 99) "Title" (.str "x")).modifiedRows = [.num 99] ∧
    (handleCellEdit twoRows (.num 99) "Title" (.str "x")).modifiedRows
      ≠ twoRows.modifiedRows := by
  decide

/-- C6: for every state reached from any state by any sequence of edits, sort toggles,
search changes, filter-column changes and page changes, `handleReset` makes the working
data equal to the original data, empties the modified set, clears the search term, unsets
the sort key with direction ascending and sets the page to 1, while the filter column and
the original data stay as they were before the reset; the original data is moreover the
one the sequence started from. -/
theorem handleReset_restores (s₀ : State) (actions : List Action) :
    (handleReset (run s₀ actions)).currentData = (run s₀ actions).originalData ∧
    (handleReset (run s₀ actions)).modifiedRows = [] ∧
    (handleReset (run s₀ actions)).searchTerm = "" ∧
    (handleReset (run s₀ actions)).sortConfig = { key := none, direction := "asc" } ∧
    (handleReset (run s₀ actions)).currentPage = 1 ∧
    (handleReset (run s₀ actions)).filterColumn = (run s₀ actions).filterColumn ∧
    (handleReset (run s₀ actions)).originalData = (run s₀ actions).originalData ∧
    (run s₀ actions).originalData = s₀.originalData :=
  ⟨rfl, rfl, rfl, rfl, rfl, rfl, rfl, run_originalData actions s₀⟩

/-! ## Import: lemmas -/

theorem getProp_fillRecord_other (row : List String) (k : String) :
    ∀ (hs : List (Nat × String)) (obj : Row), k ∉ hs.map (fun p => trim p.2) →
      (fillRecord row obj hs).getProp k = obj.getProp k := by
  intro hs
  induction hs with
  | nil => intro obj _; rfl
  | cons p rest ih =>
    intro obj hk
    obtain ⟨i, header⟩ := p
    simp only [List.map_cons, List.mem_cons, not_or] at hk
    rw [fillRecord]
    split
    · exact ih _ hk.2
    · rw [ih _ hk.2]
      exact getL_setL_other _ _ _ hk.1 _

theorem getProp_fillRecord_header (row : List String) :
    ∀ (hs : List (Nat × String)) (obj : Row), (hs.map (fun p => trim p.2)).Nodup →
      "__proto__" ∉ hs.map (fun p => trim p.2) →
      ∀ j header, (j, header) ∈ hs →
        (fillRecord row obj hs).getProp (trim header) = some (.str (row.getD j "")) := by
  intro hs
  induction hs with
  | nil => intro obj _ _ j header hm; simp at hm
  | cons p rest ih =>
    intro obj hnd hpr j header hm
    obtain ⟨i, h₀⟩ := p
    simp only [List.map_cons, List.nodup_cons] at hnd
    simp only [List.map_cons, List.mem_cons, not_or] at hpr
    have hne : ¬ trim h₀ = "__proto__" := fun e => hpr.1 e.symm
    rw [fillRecord, if_neg hne]
    rcases List.mem_cons.mp hm with heq | hin
    · obtain ⟨rfl, rfl⟩ := Prod.mk.inj heq
      rw [getProp_fillRecord_other row _ rest _ hnd.1]
      exact getL_setL_same _ _ _
    · exact ih _ hnd.2 hpr.2 j header hin

theorem rowHasContent_iff (row : List String) :
    rowHasContent row = true ↔ ∃ cell ∈ row, trim cell ≠ "" := by
  simp [rowHasContent]

/-! ## Claim on import -/

/-- C8 (amended): for a header row whose trimmed headers are pairwise distinct and none of
which is `id` or `__proto__`, followed by data rows, `parsedData` has exactly one record
for each data row that has a cell that is non-empty after trimming, in source order; the
record at position i (from 0) has id i + 1, maps every trimmed header to the cell at the
header's position (the empty string when the row has no such cell), and has no other
property of its own. -/
theorem parsedData_records (headers : List String) (rows : List (List String))
    (hnd : (headers.map trim).Nodup) (hid : "id" ∉ headers.map trim)
    (hproto : "__proto__" ∉ headers.map trim) :
    (parsedData (headers :: rows)).length
      = (rows.filter fun row => decide (∃ cell ∈ row, trim cell ≠ "")).length ∧
    ∀ (i : Nat) (row : List String),
      (rows.filter fun row => decide (∃ cell ∈ row, trim cell ≠ ""))[i]? = some row →
      ∃ record, (parsedData (headers :: rows))[i]? = some record ∧
        record.getProp "id" = some (.num (i + 1)) ∧
        (∀ (j : Nat) (header : String), headers[j]? = some header →
          record.getProp (trim header) = some (.str (row.getD j ""))) ∧
        (∀ k, k ≠ "id" → k ∉ headers.map trim → record.getProp k = none) := by
  have hf : (rows.filter fun row => decide (∃ cell ∈ row, trim cell ≠ ""))
      = rows.filter rowHasContent := by
    apply List.filter_congr
    intro row _
    rw [Bool.eq_iff_iff, rowHasContent_iff]
    simp
  have hkeys : (headers.enum).map (fun p => trim p.2) = headers.map trim := by
    have h := congrArg (List.map trim) (List.enum_map_snd headers)
    rw [List.map_map] at h
    exact h
  rw [hf]
  refine ⟨by simp [parsedData], ?_⟩
  intro i row hrow
  refine ⟨buildRecord headers row i, ?_, ?_, ?_, ?_⟩
  · simp [parsedData, List.getElem?_map, List.getElem?_enum, hrow]
  · unfold buildRecord
    rw [getProp_fillRecord_other row "id" _ _ (by rw [hkeys]; exact hid)]
    rfl
  · intro j header hj
    unfold buildRecord
    exact getProp_fillRecord_header row _ _ (by rw [hkeys]; exact hnd)
      (by rw [hkeys]; exact hproto) j header (List.mk_mem_enum_iff_getElem?.mpr hj)
  · intro k hk hk'
    unfold buildRecord
    rw [getProp_fillRecord_other row k _ _ (by rw [hkeys]; exact hk')]
    simp [Row.getProp, getL, Ne.symm hk]

/-- C8, witness: three headers, a blank second data row and a short third. -/
theorem parsedData_records_witness :
    ((["Title", " Author ", "PublishedYear"].map trim).Nodup ∧
      "id" ∉ ["Title", " Author ", "PublishedYear"].map trim ∧
      "__proto__" ∉ ["Title", " Author ", "PublishedYear"].map trim) ∧
    (parsedData (["Title", " Author ", "PublishedYear"] ::
        [["Foo", "Bar", "2000"], ["", " ", ""], ["Baz", "Qux"]])).length
      = ([["Foo", "Bar", "2000"], ["", " ", ""], ["Baz", "Qux"]].filter
          fun row => decide (∃ cell ∈ row, trim cell ≠ "")).length ∧
    parsedData (["Title", " Author ", "PublishedYear"] ::
        [["Foo", "Bar", "2000"], ["", " ", ""], ["Baz", "Qux"]])
      = [⟨[("id", .num 1), ("Title", .str "Foo"), ("Author", .str "Bar"),
            ("PublishedYear", .str "2000")]⟩,
         ⟨[("id", .num 2), ("Title", .str "Baz"), ("Author", .str "Qux"),
            ("PublishedYear", .str "")]⟩] :=
  ⟨⟨by decide, by decide, by decide⟩,
    (parsedData_records ["Title", " Author ", "PublishedYear"]
      [["Foo", "Bar", "2000"], ["", " ", ""], ["Baz", "Qux"]]
      (by decide) (by decide) (by decide)).1,
    by decide⟩

/-- C8, counterexample: a header named `id` replaces the sequential id by the cell; of
two headers with the same trimmed name the later one decides the cell; a header named
`__proto__` gets no property at all. -/
theorem parsedData_header_clash :
    parsedData [["id", "Title"], ["7", "Foo"]]
      = [⟨[("id", .str "7"), ("Title", .str "Foo")]⟩] ∧
    (∀ record ∈ parsedData [["id", "Title"], ["7", "Foo"]],
      record.getProp "id" ≠ some (.num 1)) ∧
    parsedData [["A", " A"], ["x", "y"]] = [⟨[("id", .num 1), ("A", .str "y")]⟩] ∧
    (∀ record ∈ parsedData [["A", " A"], ["x", "y"]],
      record.getProp (trim "A") ≠ some (.str "x")) ∧
    parsedData [["__proto__", "Title"], ["x", "Foo"]]
      = [⟨[("id", .num 1), ("Title", .str "Foo")]⟩] ∧
    (∀ record ∈ parsedData [["__proto__", "Title"], ["x", "Foo"]],
      record.getProp (trim "__proto__") ≠ some (.str "x")) := by
  decide

/-! ## Ordering: lemmas -/

theorem unitsLt_asymm : ∀ a b : List Nat, unitsLt a b = true → unitsLt b a = false := by
  intro a
  induction a with
  | nil => intro b _; cases b <;> rfl
  | cons x as ih =>
    intro b h
    cases b with
    | nil => simp [unitsLt] at h
    | cons y bs =>
      simp only [unitsLt, Bool.or_eq_true, Bool.and_eq_true, decide_eq_true_eq] at h
      simp only [unitsLt, Bool.or_eq_false_iff, Bool.and_eq_false_iff, decide_eq_false_iff_not]
      rcases h with h | ⟨h1, h2⟩
      · exact ⟨by omega, Or.inl (by omega)⟩
      · exact ⟨by omega, Or.inr (ih bs h2)⟩

theorem unitsLt_le_trans : ∀ a b c : List Nat,
    unitsLt b a = false → unitsLt c b = false → unitsLt c a = false := by
  intro a
  induction a with
  | nil => intro b c _ _; cases c <;> rfl
  | cons x as ih =>
    intro b c h1 h2
    cases b with
    | nil => simp [unitsLt] at h1
    | cons y bs =>
      cases c with
      | nil => simp [unitsLt] at h2
      | cons z cs =>
        simp only [unitsLt, Bool.or_eq_false_iff, Bool.and_eq_false_iff,
          decide_eq_false_iff_not] at h1 h2 ⊢
        obtain ⟨h1a, h1b⟩ := h1
        obtain ⟨h2a, h2b⟩ := h2
        refine ⟨by omega, ?_⟩
        by_cases hzx : z = x
        · right
          have hyx : ¬ ¬ y = x := by omega
          have hzy : ¬ ¬ z = y := by omega
          exact ih bs cs (h1b.resolve_left hyx) (h2b.resolve_left hzy)
        · exact Or.inl hzx

theorem numLt_asymm (a b : Num) (h : Num.lt a b = true) : Num.lt b a = false := by
  cases a <;> cases b <;> simp [Num.lt] at h ⊢
  omega

theorem numLt_le_trans (a b c : Num) (h1 : Num.lt b a = false) (h2 : Num.lt c b = false) :
    Num.lt c a = false := by
  cases a <;> cases b <;> cases c <;> simp [Num.lt] at h1 h2 ⊢
  omega

theorem keyLe_total (u : CaseData) (key : String) (a b : Row) :
    keyLe u key a b = true ∨ keyLe u key b a = true := by
  unfold keyLe
  by_cases hk : key = "PublishedYear"
  · simp only [hk, if_true, Bool.not_eq_true']
    by_cases h : Num.lt (yearValue (b.getProp "PublishedYear"))
        (yearValue (a.getProp "PublishedYear")) = true
    · exact Or.inr (numLt_asymm _ _ h)
    · exact Or.inl (by simpa using h)
  · simp only [hk, if_false, Bool.not_eq_true', strLt]
    by_cases h : unitsLt (codeUnits (textValue u (b.getProp key)))
        (codeUnits (textValue u (a.getProp key))) = true
    · exact Or.inr (unitsLt_asymm _ _ h)
    · exact Or.inl (by simpa using h)

theorem keyLe_trans (u : CaseData) (key : String) (a b c : Row)
    (h1 : keyLe u key a b = true) (h2 : keyLe u key b c = true) : keyLe u key a c = true := by
  unfold keyLe at *
  by_cases hk : key = "PublishedYear"
  · simp only [hk, if_true, Bool.not_eq_true'] at *
    exact numLt_le_trans _ _ _ h1 h2
  · simp only [hk, if_false, Bool.not_eq_true', strLt] at *
    exact unitsLt_le_trans _ _ _ h1 h2

theorem compareRows_asc (u : CaseData) (key : String) (a b : Row) :
    compareRows u key "asc" a b ≤ 0 ↔ keyLe u key a b = true := by
  unfold compareRows keyLe
  by_cases hk : key = "PublishedYear"
  · simp only [hk, if_true, Bool.not_eq_true']
    by_cases h1 : Num.lt (yearValue (a.getProp "PublishedYear"))
        (yearValue (b.getProp "PublishedYear")) = true
    · have h2 := numLt_asymm _ _ h1
      simp only [h1, if_true]
      exact ⟨fun _ => h2, fun _ => by omega⟩
    · by_cases h2 : Num.lt (yearValue (b.getProp "PublishedYear"))
          (yearValue (a.getProp "PublishedYear")) = true
      · simp [h1, h2]
      · simp [h1, h2]
  · simp only [hk, if_false, if_true, Bool.not_eq_true']
    by_cases h1 : strLt (textValue u (a.getProp key)) (textValue u (b.getProp key)) = true
    · have h2 := unitsLt_asymm _ _ h1
      simp only [h1, if_true]
      exact ⟨fun _ => h2, fun _ => by omega⟩
    · by_cases h2 : strLt (textValue u (b.getProp key)) (textValue u (a.getProp key)) = true
      · simp [h1, h2]
      · simp [h1, h2]

theorem compareRows_desc (u : CaseData) (key direction : String) (hd : direction ≠ "asc")
    (a b : Row) : compareRows u key direction a b ≤ 0 ↔ keyLe u key b a = true := by
  unfold compareRows keyLe
  by_cases hk : key = "PublishedYear"
  · simp only [hk, hd, if_true, if_false, Bool.not_eq_true']
    by_cases h1 : Num.lt (yearValue (a.getProp "PublishedYear"))
        (yearValue (b.getProp "PublishedYear")) = true
    · simp [h1]
    · by_cases h2 : Num.lt (yearValue (b.getProp "PublishedYear"))
          (yearValue (a.getProp "PublishedYear")) = true
      · have h3 := numLt_asymm _ _ h2
        simp [h2, h3]
      · simp [h1, h2]
  · simp only [hk, hd, if_false, Bool.not_eq_true']
    by_cases h1 : strLt (textValue u (a.getProp key)) (textValue u (b.getProp key)) = true
    · simp [h1]
    · by_cases h2 : strLt (textValue u (b.getProp key)) (textValue u (a.getProp key)) = true
      · have h3 := unitsLt_asymm _ _ h2
        simp only [h2, if_true]
        simp only [strLt] at h1 ⊢
        simp [h3]
      · simp [h1, h2]

theorem compareRows_total (u : CaseData) (key direction : String) (a b : Row) :
    compareRows u key direction a b ≤ 0 ∨ compareRows u key direction b a ≤ 0 := by
  by_cases hd : direction = "asc"
  · subst hd
    rw [compareRows_asc, compareRows_asc]
    exact keyLe_total u key a b
  · rw [compareRows_desc u key direction hd, compareRows_desc u key direction hd]
    exact keyLe_total u key b a

theorem compareRows_trans (u : CaseData) (key direction : String) (a b c : Row)
    (h1 : compareRows u key direction a b ≤ 0) (h2 : compareRows u key direction b c ≤ 0) :
    compareRows u key direction a c ≤ 0 := by
  by_cases hd : direction = "asc"
  · subst hd
    rw [compareRows_asc] at *
    exact keyLe_trans u key a b c h1 h2
  · rw [compareRows_desc u key direction hd] at *
    exact keyLe_trans u key c b a h2 h1

theorem compareRows_of_keyEq (u : CaseData) (key direction : String) (a b : Row)
    (h : keyEq u key a b = true) : compareRows u key direction a b ≤ 0 := by
  simp only [keyEq, Bool.and_eq_true] at h
  by_cases hd : direction = "asc"
  · subst hd
    exact (compareRows_asc u key a b).mpr h.1
  · exact (compareRows_desc u key direction hd a b).mpr h.2

theorem sortBy_perm (u : CaseData) (key direction : String) (l : List Row) :
    (sortBy (compareRows u key direction) l).Perm l :=
  List.perm_insertionSort _ l

theorem sortBy_pairwise (u : CaseData) (key direction : String) (l : List Row) :
    (sortBy (compareRows u key direction) l).Pairwise
      fun a b => compareRows u key direction a b ≤ 0 := by
  haveI : IsTotal Row (fun a b => compareRows u key direction a b ≤ 0) :=
    ⟨compareRows_total u key direction⟩
  haveI : IsTrans Row (fun a b => compareRows u key direction a b ≤ 0) :=
    ⟨compareRows_trans u key direction⟩
  exact List.sorted_insertionSort _ l

theorem sortBy_stable (u : CaseData) (key direction : String) (l : List Row) (a b : Row)
    (h : keyEq u key a b = true) (hs : [a, b].Sublist l) :
    [a, b].Sublist (sortBy (compareRows u key direction) l) := by
  haveI : IsTotal Row (fun a b => compareRows u key direction a b ≤ 0) :=
    ⟨compareRows_total u key direction⟩
  haveI : IsTrans Row (fun a b => compareRows u key direction a b ≤ 0) :=
    ⟨compareRows_trans u key direction⟩
  exact List.pair_sublist_insertionSort (compareRows_of_keyEq u key direction a b h) hs

theorem bitLengthAux_le : ∀ (fuel k n : Nat), n < 2 ^ k → bitLengthAux fuel n ≤ k := by
  intro fuel
  induction fuel with
  | zero => intro k n _; simp [bitLengthAux]
  | succ fuel ih =>
    intro k n h
    rw [bitLengthAux]
    split
    · exact Nat.zero_le _
    · rename_i hn
      cases k with
      | zero => simp at h; exact absurd h hn
      | succ k =>
        have h2 : n / 2 < 2 ^ k := by
          rw [Nat.pow_succ] at h
          omega
        have := ih k (n / 2) h2
        omega

theorem toDouble_of_small (n : Nat) (h : n < 2 ^ 53) : toDouble n = some n := by
  have h1 : bitLengthAux 1025 n ≤ 53 := bitLengthAux_le 1025 53 n h
  have h2 : bitLengthAux 1025 n - 53 = 0 := by omega
  unfold toDouble
  simp only [h2, pow_zero, Nat.div_one, Nat.mod_one, Nat.mul_one]
  have h3 : bitLengthAux 1025 n ≤ 1024 := by omega
  simp [h3]

theorem numOfInt_of_small (z : Int) (h : z.natAbs < 2 ^ 53) : numOfInt z = .fin z := by
  unfold numOfInt
  rw [toDouble_of_small _ h]
  simp only
  congr 1
  split <;> omega

theorem yearValue_of_small (v : Option Value) (h : (integerYear v).natAbs < 2 ^ 53) :
    yearValue v = .fin (integerYear v) := by
  unfold yearValue integerYear parseIntL at *
  cases v with
  | none => rfl
  | some x =>
    simp only at h ⊢
    cases hp : parseExact x.toString.data with
    | none => rfl
    | some z =>
      simp only [hp, Option.map_some', Option.getD_some] at h ⊢
      exact numOfInt_of_small z h

/-! ## Claims on sorting and filtering -/

/-- C3 (amended): for every state whose sort key is set to a column name, the result of
`sortedAndFilteredData` is a permutation of the filtered rows; it is ordered by the sort
key, non-decreasing when the direction is `asc` and non-increasing otherwise; two rows
whose keys compare equal keep the relative order they had in the filtered sequence, in
either direction; and the key of the `PublishedYear` column, the Number that `parseInt`
returns, is the integer that the cell denotes (0 when unparsable) whenever that integer
is below 2^53 in magnitude. -/
theorem sorted_is_stable_ordered_perm (u : CaseData) (s : State) (key : String)
    (hkey : s.sortConfig.key = some key) (hne : key ≠ "") :
    (sortedAndFilteredData u s).Perm (filtered u s) ∧
    (s.sortConfig.direction = "asc" →
      (sortedAndFilteredData u s).Pairwise fun a b => keyLe u key a b = true) ∧
    (s.sortConfig.direction ≠ "asc" →
      (sortedAndFilteredData u s).Pairwise fun a b => keyLe u key b a = true) ∧
    (∀ a b, keyEq u key a b = true → [a, b].Sublist (filtered u s) →
      [a, b].Sublist (sortedAndFilteredData u s)) ∧
    (∀ v : Option Value, (integerYear v).natAbs < 2 ^ 53 →
      yearValue v = .fin (integerYear v)) := by
  have e : sortedAndFilteredData u s
      = sortBy (compareRows u key s.sortConfig.direction) (filtered u s) := by
    simp [sortedAndFilteredData, hkey, hne]
  rw [e]
  refine ⟨sortBy_perm _ _ _ _, ?_, ?_, ?_, yearValue_of_small⟩
  · intro hd
    have h := sortBy_pairwise u key s.sortConfig.direction (filtered u s)
    rw [hd] at h ⊢
    exact h.imp fun {a b} hab => (compareRows_asc u key a b).mp hab
  · intro hd
    have h := sortBy_pairwise u key s.sortConfig.direction (filtered u s)
    exact h.imp fun {a b} hab => (compareRows_desc u key _ hd a b).mp hab
  · intro a b hab hs
    exact sortBy_stable u key _ _ a b hab hs

/-- C3, witness: sorting the years 2000, 1999 in ascending direction gives 1999, 2000. -/
theorem sorted_is_stable_ordered_perm_witness :
    (twoRowsByYear.sortConfig.key = some "PublishedYear" ∧ "PublishedYear" ≠ "") ∧
    sortedAndFilteredData unicodeExcerpt twoRowsByYear = [rowBaz, rowFoo] ∧
    (sortedAndFilteredData unicodeExcerpt twoRowsByYear).Perm
      (filtered unicodeExcerpt twoRowsByYear) ∧
    ((sortedAndFilteredData unicodeExcerpt twoRowsByYear).Pairwise
      fun a b => keyLe unicodeExcerpt "PublishedYear" a b = true) :=
  ⟨⟨rfl, by decide⟩, by decide,
    (sorted_is_stable_ordered_perm unicodeExcerpt twoRowsByYear "PublishedYear" rfl
      (by decide)).1,
    (sorted_is_stable_ordered_perm unicodeExcerpt twoRowsByYear "PublishedYear" rfl
      (by decide)).2.1 rfl⟩

/-- C3, counterexample: the years 9007199254740993 and 9007199254740992, in that order,
are both read as the Number 2^53; sorted ascending by year they keep their order, so the
integer values of the result decrease. -/
theorem rounded_years_keep_source_order :
    longYears.sortConfig.key = some "PublishedYear" ∧
    longYears.sortConfig.direction = "asc" ∧
    yearValue (rowYearOdd.getProp "PublishedYear") = .fin 9007199254740992 ∧
    yearValue (rowYearEven.getProp "PublishedYear") = .fin 9007199254740992 ∧
    sortedAndFilteredData unicodeExcerpt longYears = [rowYearOdd, rowYearEven] ∧
    integerYear (rowYearOdd.getProp "PublishedYear") = 9007199254740993 ∧
    integerYear (rowYearEven.getProp "PublishedYear") = 9007199254740992 ∧
    ¬ (sortedAndFilteredData unicodeExcerpt longYears).Pairwise fun a b =>
      integerYear (a.getProp "PublishedYear") ≤ integerYear (b.getProp "PublishedYear") := by
  decide

/-- C2 (amended): for every state and every row, the filtered rows are a subsequence of
the working data. With filter column `all`, a row of the working data is retained when
one of its column values (a property other than `id`), lower-cased, contains the
lower-cased search term, and also when the search term is empty and the row has a
property; a retained row has a property value whose text, lower-cased, contains the
lower-cased search term. With any other filter column, a row is retained exactly when it
is in the working data, has a cell for that column, and the cell's text, lower-cased,
contains the lower-cased search term. -/
theorem filtered_rows (u : CaseData) (s : State) (row : Row) :
    (filtered u s).Sublist s.currentData ∧
    (s.filterColumn = "all" → row ∈ s.currentData →
      (∃ p ∈ row.props, p.1 ≠ "id" ∧
        includes (toLowerCase u p.2.toString) (toLowerCase u s.searchTerm) = true) →
      row ∈ filtered u s) ∧
    (s.filterColumn = "all" → s.searchTerm = "" → row ∈ s.currentData → row.props ≠ [] →
      row ∈ filtered u s) ∧
    (s.filterColumn = "all" → row ∈ filtered u s →
      ∃ v ∈ row.values,
        includes (toLowerCase u v.toString) (toLowerCase u s.searchTerm) = true) ∧
    (s.filterColumn ≠ "all" →
      (row ∈ filtered u s ↔
        row ∈ s.currentData ∧ ∃ v, row.getProp s.filterColumn = some v ∧
          includes (toLowerCase u v.toString) (toLowerCase u s.searchTerm) = true)) := by
  refine ⟨List.filter_sublist _, ?_, ?_, ?_, ?_⟩
  · intro hall hmem ⟨p, hp, _, hinc⟩
    simp only [filtered, List.mem_filter, rowMatches, hall, if_true, List.any_eq_true]
    exact ⟨hmem, p.2, List.mem_map.mpr ⟨p, hp, rfl⟩, hinc⟩
  · intro hall hterm hmem hne
    simp only [filtered, List.mem_filter, rowMatches, hall, hterm, if_true, List.any_eq_true]
    refine ⟨hmem, ?_⟩
    obtain ⟨p, rest, hpr⟩ := List.exists_cons_of_ne_nil hne
    refine ⟨p.2, by simp [Row.values, hpr], ?_⟩
    unfold includes
    rw [includesL_iff]
    exact List.nil_infix
  · intro hall hmem
    simp only [filtered, List.mem_filter, rowMatches, hall, if_true, List.any_eq_true] at hmem
    exact hmem.2
  · intro hcol
    simp only [filtered, List.mem_filter, rowMatches, hcol, if_false]
    constructor
    · rintro ⟨hmem, hm⟩
      cases hg : row.getProp s.filterColumn with
      | none => simp [hg] at hm
      | some v => exact ⟨hmem, v, rfl, by simpa [hg] using hm⟩
    · rintro ⟨hmem, v, hg, hinc⟩
      exact ⟨hmem, by simpa [hg] using hinc⟩

/-- C2, witness: the search term "foo" on the title column retains the row titled "Foo". -/
theorem filtered_rows_witness :
    twoRowsTitleFoo.filterColumn ≠ "all" ∧
    (rowFoo ∈ twoRowsTitleFoo.currentData ∧ ∃ v, rowFoo.getProp twoRowsTitleFoo.filterColumn
        = some v ∧
      includes (toLowerCase unicodeExcerpt v.toString)
        (toLowerCase unicodeExcerpt twoRowsTitleFoo.searchTerm) = true) ∧
    rowFoo ∈ filtered unicodeExcerpt twoRowsTitleFoo :=
  ⟨by decide, ⟨by decide, .str "Foo", by decide, by decide⟩,
    ((filtered_rows unicodeExcerpt twoRowsTitleFoo rowFoo).2.2.2.2 (by decide)).mpr
      ⟨by decide, .str "Foo", by decide, by decide⟩⟩

/-- C2, counterexample: with filter column `all` the term "1" retains a row none of whose
column values contains "1" (its id does); with filter column `Genre` and an empty search
term a row without a `Genre` cell is dropped. The specification's rule says the
opposite both times. -/
theorem filter_differs_from_rule :
    (rowFoo ∈ filtered unicodeExcerpt twoRowsSearchOne ∧
      specRetains unicodeExcerpt twoRowsSearchOne.searchTerm twoRowsSearchOne.filterColumn
        rowFoo = false) ∧
    (rowFoo ∈ twoRowsByGenre.currentData ∧ rowFoo ∉ filtered unicodeExcerpt twoRowsByGenre ∧
      specRetains unicodeExcerpt twoRowsByGenre.searchTerm twoRowsByGenre.filterColumn
        rowFoo = true) := by
  decide

end CSVBookManager
